import Mathlib

/-!
Verification of the cert-landing rendering core.

The definitions below are a shallow embedding of the JavaScript rendering
code of the repository, chiefly `functions/api/preview.js` and its sibling
handler variant (`posToPdf`, `clamp01`, `hexToRgb01`, `fitTextSize`,
`drawBackgroundCover` / `coverRect`, row normalization, and the page-drawing
loop of `onRequestPost`).

Modelling conventions:
* JavaScript numbers that the code keeps finite are modelled as `ℚ`;
  a coordinate slot that may hold NaN/Infinity is a `JSNum`
  (`finite q` or `nonFinite`), and a slot that may be absent
  (`undefined`) is an `Option`.
* Font point sizes are integers (`ℤ`): every call site passes integer
  sizes and the fitter decrements by whole points.
* Strings are `List Char`; a font handle is modelled by its width
  function `List Char → ℤ → ℚ` (the code only ever calls
  `font.widthOfTextAtSize`).
-/

namespace CertLanding

/-! ### JavaScript numeric slots -/

/-- A JavaScript number as it can appear in a position slot: either a
finite value or a non-finite one (NaN, ±Infinity). -/
inductive JSNum where
  | finite (q : ℚ)
  | nonFinite
deriving DecidableEq, Repr

/-- Embeds `clamp01(n)` from `preview.js`: non-finite input maps to 0, otherwise
`Math.max(0, Math.min(1, n))`. -/
def clamp01 : JSNum → ℚ
  | .nonFinite => 0
  | .finite q => max 0 (min 1 q)

/-- A UI position object `{x, y}`; either member may be absent
(`undefined`). -/
structure UIPos where
  x : Option JSNum
  y : Option JSNum
deriving DecidableEq, Repr

/-- Embeds `posToPdf(posObj, w, h)` from `preview.js`:
`x = clamp01(Number(posObj?.x ?? 0.5)) * w`,
`yTop = clamp01(Number(posObj?.y ?? 0.5))`, `y = (1 - yTop) * h`.
An absent object or member yields the default `0.5`. -/
def posToPdf (posObj : Option UIPos) (w h : ℚ) : ℚ × ℚ :=
  let xSlot : JSNum := (posObj.bind UIPos.x).getD (.finite (1/2))
  let ySlot : JSNum := (posObj.bind UIPos.y).getD (.finite (1/2))
  let x := clamp01 xSlot * w
  let yTop := clamp01 ySlot
  (x, (1 - yTop) * h)

/-! ### Text fitter -/

/-- The `while` loop of `fitTextSize`: while `size > minSize` and
`width(t, size) > maxWidth`, decrement `size` by 1.  `width` is the
font's `widthOfTextAtSize` applied to the fixed text `t`. -/
def fitLoop (width : ℤ → ℚ) (maxWidth : ℚ) (minSize : ℤ) (size : ℤ) : ℤ :=
  if h : minSize < size ∧ maxWidth < width size then
    fitLoop width maxWidth minSize (size - 1)
  else
    size
termination_by (size - minSize).toNat
decreasing_by omega

/-- Embeds `fitTextSize(font, text, maxWidth, startSize, minSize)` from
`preview.js`: coerce `text ?? \x22\x22` to a string, then run the
shrink loop from `startSize`. The font handle is represented by its
width function. -/
def fitTextSize (width : List Char → ℤ → ℚ) (text : Option (List Char))
    (maxWidth : ℚ) (startSize minSize : ℤ) : ℤ :=
  let t := text.getD []
  fitLoop (width t) maxWidth minSize startSize

/-- Fuel-indexed version of the `fitTextSize` loop: one unit of fuel per
iteration, `none` when the fuel runs out before the loop exits. -/
def fitLoopFuel (width : ℤ → ℚ) (maxWidth : ℚ) (minSize : ℤ) :
    ℕ → ℤ → Option ℤ
  | fuel, size =>
    if minSize < size ∧ maxWidth < width size then
      match fuel with
      | 0 => none
      | f + 1 => fitLoopFuel width maxWidth minSize f (size - 1)
    else
      some size

/-! ### Background cover fit -/

/-- The rectangle returned by `coverRect` in `src/lib/templates.js`. -/
structure CoverBox where
  x : ℚ
  y : ℚ
  w : ℚ
  h : ℚ
deriving DecidableEq, Repr

/-- Embeds `coverRect(imgW, imgH, boxW, boxH)` from `src/lib/templates.js`:
`scale = Math.max(boxW / imgW, boxH / imgH)`, scaled size, centered
offsets. -/
def coverRect (imgW imgH boxW boxH : ℚ) : CoverBox :=
  let scale := max (boxW / imgW) (boxH / imgH)
  let w := imgW * scale
  let h := imgH * scale
  { x := (boxW - w) / 2, y := (boxH - h) / 2, w := w, h := h }

end CertLanding

namespace CertLanding

/-! ### Basic facts about the fitter loop -/

theorem fitLoop_eq (width : ℤ → ℚ) (maxWidth : ℚ) (minSize size : ℤ) :
    fitLoop width maxWidth minSize size =
      if minSize < size ∧ maxWidth < width size then
        fitLoop width maxWidth minSize (size - 1)
      else size := by
  rw [fitLoop]
  split <;> rfl

theorem fitLoop_le (width : ℤ → ℚ) (maxWidth : ℚ) (minSize size : ℤ) :
    fitLoop width maxWidth minSize size ≤ size := by
  rw [fitLoop_eq]
  split
  · have := fitLoop_le width maxWidth minSize (size - 1)
    omega
  · omega
termination_by (size - minSize).toNat
decreasing_by omega

theorem fitLoop_min_le (width : ℤ → ℚ) (maxWidth : ℚ) (minSize size : ℤ)
    (h : minSize ≤ size) :
    minSize ≤ fitLoop width maxWidth minSize size := by
  rw [fitLoop_eq]
  split
  · exact fitLoop_min_le width maxWidth minSize (size - 1) (by omega)
  · exact h
termination_by (size - minSize).toNat
decreasing_by omega

theorem fitLoop_exit (width : ℤ → ℚ) (maxWidth : ℚ) (minSize size : ℤ) :
    fitLoop width maxWidth minSize size ≤ minSize ∨
      width (fitLoop width maxWidth minSize size) ≤ maxWidth := by
  rw [fitLoop_eq]
  split
  · exact fitLoop_exit width maxWidth minSize (size - 1)
  · rename_i h
    rw [not_and_or] at h
    rcases h with h | h
    · exact Or.inl (by omega)
    · exact Or.inr (le_of_not_lt h)
termination_by (size - minSize).toNat
decreasing_by omega

/-- Any size in `[minSize, size]` whose width fits is a lower bound on the
loop's result, provided the width function is monotone. -/
theorem fitLoop_fitting_le
    (width : ℤ → ℚ) (maxWidth : ℚ) (minSize size : ℤ)
    (mono : ∀ s₁ s₂ : ℤ, s₁ ≤ s₂ → width s₁ ≤ width s₂)
    (s : ℤ) (hmin : minSize ≤ s) (hle : s ≤ size)
    (hfit : width s ≤ maxWidth) :
    s ≤ fitLoop width maxWidth minSize size := by
  rw [fitLoop_eq]
  split
  · rename_i h
    have hne : s ≠ size := by
      intro he
      subst he
      exact absurd (lt_of_le_of_lt hfit h.2) (lt_irrefl _)
    exact fitLoop_fitting_le width maxWidth minSize (size - 1) mono s hmin
      (by omega) hfit
  · exact hle
termination_by (size - minSize).toNat
decreasing_by omega

/-- Sufficient fuel makes the fuelled loop agree with the total loop:
`(size - minSize).toNat` iterations always suffice. -/
theorem fitLoopFuel_eq_fitLoop (width : ℤ → ℚ) (maxWidth : ℚ) (minSize : ℤ) :
    ∀ (fuel : ℕ) (size : ℤ), (size - minSize).toNat ≤ fuel →
      fitLoopFuel width maxWidth minSize fuel size =
        some (fitLoop width maxWidth minSize size) := by
  intro fuel
  induction fuel with
  | zero =>
    intro size hf
    have hle : size ≤ minSize := by omega
    have hcond : ¬(minSize < size ∧ maxWidth < width size) := by
      intro hc
      omega
    rw [fitLoopFuel, fitLoop_eq]
    simp [hcond]
  | succ f ih =>
    intro size hf
    rw [fitLoopFuel, fitLoop_eq]
    by_cases hcond : minSize < size ∧ maxWidth < width size
    · simp only [hcond, if_true]
      exact ih (size - 1) (by omega)
    · simp [hcond]

/-! ### Facts about `clamp01` -/

theorem clamp01_nonneg (j : JSNum) : 0 ≤ clamp01 j := by
  cases j with
  | nonFinite => exact le_refl 0
  | finite q => exact le_max_left 0 _

theorem clamp01_le_one (j : JSNum) : clamp01 j ≤ 1 := by
  cases j with
  | nonFinite => norm_num [clamp01]
  | finite q =>
    simp only [clamp01]
    exact max_le (by norm_num) (min_le_left 1 q)

end CertLanding


namespace CertLanding

/-! ### Claim theorems: text fitter -/

/-- C1: for every text, every `startSize ≥ minSize`, and every width
function monotone in size for fixed text, `fitTextSize` returns the
largest size in `[minSize, startSize]` whose measured width fits in
`maxWidth`, and `minSize` when no size in that range fits; for empty or
undefined text (width 0 at every size) and `maxWidth ≥ 0` it returns
`startSize`. -/
theorem fitTextSize_largest_fitting
    (width : List Char → ℤ → ℚ) (text : Option (List Char))
    (maxWidth : ℚ) (startSize minSize : ℤ)
    (hstart : minSize ≤ startSize)
    (mono : ∀ s₁ s₂ : ℤ, s₁ ≤ s₂ →
      width (text.getD []) s₁ ≤ width (text.getD []) s₂) :
    (minSize ≤ fitTextSize width text maxWidth startSize minSize ∧
      fitTextSize width text maxWidth startSize minSize ≤ startSize) ∧
    (∀ s : ℤ, minSize ≤ s → s ≤ startSize →
      width (text.getD []) s ≤ maxWidth →
      s ≤ fitTextSize width text maxWidth startSize minSize ∧
      width (text.getD [])
        (fitTextSize width text maxWidth startSize minSize) ≤ maxWidth) ∧
    ((∀ s : ℤ, minSize ≤ s → s ≤ startSize →
        maxWidth < width (text.getD []) s) →
      fitTextSize width text maxWidth startSize minSize = minSize) ∧
    ((∀ s : ℤ, width [] s = 0) → 0 ≤ maxWidth →
      fitTextSize width none maxWidth startSize minSize = startSize ∧
      fitTextSize width (some []) maxWidth startSize minSize = startSize) := by
  set t := text.getD [] with ht
  have hle := fitLoop_le (width t) maxWidth minSize startSize
  have hmin := fitLoop_min_le (width t) maxWidth minSize startSize hstart
  have hexit := fitLoop_exit (width t) maxWidth minSize startSize
  refine ⟨⟨hmin, hle⟩, ?_, ?_, ?_⟩
  · intro s hs₁ hs₂ hfit
    have hsle := fitLoop_fitting_le (width t) maxWidth minSize startSize
      mono s hs₁ hs₂ hfit
    refine ⟨hsle, ?_⟩
    rcases hexit with hr | hr
    · have : fitTextSize width text maxWidth startSize minSize = s := by
        simp only [fitTextSize, ← ht] at *
        omega
      rw [this]
      exact hfit
    · exact hr
  · intro hnone
    rcases hexit with hr | hr
    · simp only [fitTextSize, ← ht] at *
      omega
    · exact absurd hr (not_le_of_lt (hnone _ hmin hle))
  · intro hzero hmw
    constructor
    · simp only [fitTextSize, Option.getD]
      rw [fitLoop_eq]
      have : ¬ maxWidth < width [] startSize := by
        rw [hzero]
        exact not_lt_of_le hmw
      simp [this]
    · simp only [fitTextSize, Option.getD]
      rw [fitLoop_eq]
      have : ¬ maxWidth < width [] startSize := by
        rw [hzero]
        exact not_lt_of_le hmw
      simp [this]

/-- Witness for C1 at a concrete instance: constant-zero width function,
text `['a']`, `maxWidth = 0`, sizes `10` down to `5`; the fitter keeps the
start size because it already fits. -/
theorem fitTextSize_largest_fitting_witness :
    (5 : ℤ) ≤ 10 ∧
      fitTextSize (fun _ _ => (0 : ℚ)) (some ['a']) 0 10 5 = 10 := by
  have h := fitTextSize_largest_fitting (fun _ _ => (0 : ℚ)) (some ['a'])
    0 10 5 (by norm_num) (fun _ _ _ => le_refl 0)
  have h2 := (h.2.1 10 (by norm_num) (le_refl 10) (le_refl 0)).1
  exact ⟨by norm_num, le_antisymm h.1.2 h2⟩

/-- C8: the `fitTextSize` loop terminates: with fuel
`(startSize - minSize).toNat` — one unit per whole-point decrement — the
fuelled loop exits with the same value as the code's loop, and at exit the
size is `≤ minSize` or the text fits, even when the text still overflows
at the minimum size. -/
theorem fitTextSize_terminates
    (width : List Char → ℤ → ℚ) (text : Option (List Char))
    (maxWidth : ℚ) (startSize minSize : ℤ) :
    fitLoopFuel (width (text.getD [])) maxWidth minSize
        ((startSize - minSize).toNat) startSize =
      some (fitTextSize width text maxWidth startSize minSize) ∧
    (fitTextSize width text maxWidth startSize minSize ≤ minSize ∨
      width (text.getD [])
        (fitTextSize width text maxWidth startSize minSize) ≤ maxWidth) := by
  constructor
  · exact fitLoopFuel_eq_fitLoop (width (text.getD [])) maxWidth minSize
      ((startSize - minSize).toNat) startSize (le_refl _)
  · exact fitLoop_exit (width (text.getD [])) maxWidth minSize startSize

/-! ### Claim theorems: coordinate mapper -/

/-- C2: `posToPdf` maps a position object with both members present to
`(clamp(x) * w, (1 - clamp(y)) * h)`; a non-finite coordinate clamps to
0; for nonnegative page dimensions every output lies in
`[0, w] × [0, h]`; `{x:0, y:0}` maps to `(0, h)` and `{x:1, y:1}` to
`(w, 0)`. -/
theorem posToPdf_spec (w h : ℚ) (hw : 0 ≤ w) (hh : 0 ≤ h) :
    (∀ jx jy : JSNum,
      posToPdf (some ⟨some jx, some jy⟩) w h =
        (clamp01 jx * w, (1 - clamp01 jy) * h)) ∧
    clamp01 .nonFinite = 0 ∧
    (∀ p : Option UIPos,
      0 ≤ (posToPdf p w h).1 ∧ (posToPdf p w h).1 ≤ w ∧
      0 ≤ (posToPdf p w h).2 ∧ (posToPdf p w h).2 ≤ h) ∧
    posToPdf (some ⟨some (.finite 0), some (.finite 0)⟩) w h = (0, h) ∧
    posToPdf (some ⟨some (.finite 1), some (.finite 1)⟩) w h = (w, 0) := by
  refine ⟨fun jx jy => rfl, rfl, ?_, ?_, ?_⟩
  · intro p
    simp only [posToPdf]
    set jx := (p.bind UIPos.x).getD (.finite (1/2)) with hjx
    set jy := (p.bind UIPos.y).getD (.finite (1/2)) with hjy
    have hx0 := clamp01_nonneg jx
    have hx1 := clamp01_le_one jx
    have hy0 := clamp01_nonneg jy
    have hy1 := clamp01_le_one jy
    refine ⟨mul_nonneg hx0 hw, ?_, ?_, ?_⟩
    · calc clamp01 jx * w ≤ 1 * w := mul_le_mul_of_nonneg_right hx1 hw
        _ = w := one_mul w
    · exact mul_nonneg (by linarith) hh
    · calc (1 - clamp01 jy) * h ≤ 1 * h := by
            apply mul_le_mul_of_nonneg_right _ hh
            linarith
        _ = h := one_mul h
  · simp only [posToPdf, Option.bind_some, Option.getD_some, clamp01]
    norm_num
  · simp only [posToPdf, Option.bind_some, Option.getD_some, clamp01]
    norm_num

/-- Witness for C2 at `w = 842`, `h = 595`: a position with both
coordinates non-finite maps to `(0, 595)`. -/
theorem posToPdf_spec_witness :
    (0 : ℚ) ≤ 842 ∧ (0 : ℚ) ≤ 595 ∧
      posToPdf (some ⟨some .nonFinite, some .nonFinite⟩) 842 595 =
        (0, 595) := by
  have h := posToPdf_spec 842 595 (by norm_num) (by norm_num)
  refine ⟨by norm_num, by norm_num, ?_⟩
  rw [h.1 .nonFinite .nonFinite]
  norm_num [clamp01]

/-- C9: an absent position object, or an absent `x` or `y` member,
defaults to `0.5`, placing the point at the centre of that axis
(`x = w/2`, `y = h/2` after the flip) — unlike a present non-finite
coordinate, which is treated as 0. -/
theorem posToPdf_missing_defaults_center (w h : ℚ) :
    posToPdf none w h = ((1/2) * w, (1/2) * h) ∧
    (∀ jy : JSNum, posToPdf (some ⟨none, some jy⟩) w h =
      ((1/2) * w, (1 - clamp01 jy) * h)) ∧
    (∀ jx : JSNum, posToPdf (some ⟨some jx, none⟩) w h =
      (clamp01 jx * w, (1/2) * h)) ∧
    posToPdf (some ⟨none, none⟩) w h = ((1/2) * w, (1/2) * h) ∧
    posToPdf (some ⟨some .nonFinite, some .nonFinite⟩) w h = (0, 1 * h) := by
  have hc : clamp01 (.finite (1/2)) = 1/2 := by
    simp only [clamp01]
    norm_num
  refine ⟨?_, ?_, ?_, ?_, ?_⟩
  · rw [show posToPdf none w h =
      (clamp01 (.finite (1/2)) * w, (1 - clamp01 (.finite (1/2))) * h)
      from rfl, hc]
    norm_num
  · intro jy
    rw [show posToPdf (some ⟨none, some jy⟩) w h =
      (clamp01 (.finite (1/2)) * w, (1 - clamp01 jy) * h) from rfl, hc]
  · intro jx
    rw [show posToPdf (some ⟨some jx, none⟩) w h =
      (clamp01 jx * w, (1 - clamp01 (.finite (1/2))) * h) from rfl, hc]
    norm_num
  · rw [show posToPdf (some ⟨none, none⟩) w h =
      (clamp01 (.finite (1/2)) * w, (1 - clamp01 (.finite (1/2))) * h)
      from rfl, hc]
    norm_num
  · rw [show posToPdf (some ⟨some .nonFinite, some .nonFinite⟩) w h =
      (clamp01 .nonFinite * w, (1 - clamp01 .nonFinite) * h) from rfl]
    norm_num [clamp01]

/-! ### Claim theorems: background cover fit -/

/-- C3: for positive image and box dimensions, `coverRect` scales by
`max(boxW/imgW, boxH/imgH)`, covers the box in both axes, preserves the
image aspect ratio, centres the overflow, and on
`(1000, 500, 842, 595)` yields width 1190, height 595, `x = -174`,
`y = 0`. -/
theorem coverRect_covers (imgW imgH boxW boxH : ℚ)
    (hiw : 0 < imgW) (hih : 0 < imgH) (hbw : 0 < boxW) (hbh : 0 < boxH) :
    (coverRect imgW imgH boxW boxH).w =
      imgW * max (boxW / imgW) (boxH / imgH) ∧
    (coverRect imgW imgH boxW boxH).h =
      imgH * max (boxW / imgW) (boxH / imgH) ∧
    boxW ≤ (coverRect imgW imgH boxW boxH).w ∧
    boxH ≤ (coverRect imgW imgH boxW boxH).h ∧
    (coverRect imgW imgH boxW boxH).w / (coverRect imgW imgH boxW boxH).h =
      imgW / imgH ∧
    (coverRect imgW imgH boxW boxH).x =
      (boxW - (coverRect imgW imgH boxW boxH).w) / 2 ∧
    (coverRect imgW imgH boxW boxH).y =
      (boxH - (coverRect imgW imgH boxW boxH).h) / 2 ∧
    coverRect 1000 500 842 595 = ⟨-174, 0, 1190, 595⟩ := by
  have hsw : boxW / imgW ≤ max (boxW / imgW) (boxH / imgH) := le_max_left _ _
  have hsh : boxH / imgH ≤ max (boxW / imgW) (boxH / imgH) := le_max_right _ _
  have hspos : 0 < max (boxW / imgW) (boxH / imgH) :=
    lt_of_lt_of_le (div_pos hbw hiw) hsw
  refine ⟨rfl, rfl, ?_, ?_, ?_, rfl, rfl, ?_⟩
  · calc boxW = imgW * (boxW / imgW) := by
          field_simp
      _ ≤ imgW * max (boxW / imgW) (boxH / imgH) :=
          mul_le_mul_of_nonneg_left hsw (le_of_lt hiw)
  · calc boxH = imgH * (boxH / imgH) := by
          field_simp
      _ ≤ imgH * max (boxW / imgW) (boxH / imgH) :=
          mul_le_mul_of_nonneg_left hsh (le_of_lt hih)
  · show imgW * max (boxW / imgW) (boxH / imgH) /
      (imgH * max (boxW / imgW) (boxH / imgH)) = imgW / imgH
    rw [mul_div_mul_right _ _ (ne_of_gt hspos)]
  · show coverRect 1000 500 842 595 = ⟨-174, 0, 1190, 595⟩
    have hmax : max ((842 : ℚ) / 1000) ((595 : ℚ) / 500) = 595 / 500 := by
      rw [max_eq_right]
      norm_num
    simp only [coverRect, hmax]
    norm_num

/-- Witness for C3 at the concrete instance `(1000, 500, 842, 595)`:
the positivity hypotheses hold and the box is covered. -/
theorem coverRect_covers_witness :
    (0 : ℚ) < 1000 ∧ (0 : ℚ) < 500 ∧ (0 : ℚ) < 842 ∧ (0 : ℚ) < 595 ∧
      (842 : ℚ) ≤ (coverRect 1000 500 842 595).w ∧
      (595 : ℚ) ≤ (coverRect 1000 500 842 595).h := by
  have h := coverRect_covers 1000 500 842 595 (by norm_num) (by norm_num)
    (by norm_num) (by norm_num)
  exact ⟨by norm_num, by norm_num, by norm_num, by norm_num,
    h.2.2.1, h.2.2.2.1⟩

end CertLanding

namespace CertLanding

/-! ### Hex color parsing

Embedding of `hexToRgb01` from `preview.js`.  Strings are `List Char`.
`Number.parseInt(v, 16)` is modelled exactly (ECMA-262 `parseInt` with
radix 16): skip leading whitespace, optional sign, optional `0x`/`0X`
prefix, then the longest prefix of hex digits — NaN (`none`) only when
that prefix is empty.  The model computes the parsed value as an exact
integer (the JS double is exact for the string lengths all theorems
below use).  JavaScript `>>` and `&` coerce through ToInt32, modelled by
`toInt32`. -/

/-- Value of a hexadecimal digit character, `none` for any other
character. -/
def hexDigit? (c : Char) : Option ℕ :=
  if 48 ≤ c.toNat ∧ c.toNat ≤ 57 then some (c.toNat - 48)
  else if 97 ≤ c.toNat ∧ c.toNat ≤ 102 then some (c.toNat - 87)
  else if 65 ≤ c.toNat ∧ c.toNat ≤ 70 then some (c.toNat - 55)
  else none

/-- JavaScript whitespace (the code points `String.prototype.trim` and
`parseInt` skip; exotic Unicode space separators omitted — no theorem
below depends on them). -/
def isJsWS (c : Char) : Bool :=
  decide (c.toNat = 9 ∨ c.toNat = 10 ∨ c.toNat = 11 ∨ c.toNat = 12 ∨
    c.toNat = 13 ∨ c.toNat = 32 ∨ c.toNat = 160 ∨ c.toNat = 65279)

/-- Embeds `String.prototype.trim()`: strip whitespace from both ends. -/
def trimChars (l : List Char) : List Char :=
  ((l.dropWhile isJsWS).reverse.dropWhile isJsWS).reverse

/-- Accumulating value of the longest hex-digit prefix (the `mathInt`
loop of `parseInt`): stops at the first non-digit. -/
def hexVal : List Char → ℕ → ℕ
  | [], acc => acc
  | c :: rest, acc =>
    match hexDigit? c with
    | some d => hexVal rest (16 * acc + d)
    | none => acc

/-- Embeds `Number.parseInt(v, 16)`; `none` is NaN. -/
def parseIntHex (l : List Char) : Option ℤ :=
  let l1 := l.dropWhile isJsWS
  let sgn : ℤ := if l1.head? = some '-' then -1 else 1
  let l2 := if l1.head? = some '-' ∨ l1.head? = some '+' then l1.tail else l1
  let l3 :=
    if l2.take 2 = ['0', 'x'] ∨ l2.take 2 = ['0', 'X'] then l2.drop 2 else l2
  match l3.head? with
  | some c => if (hexDigit? c).isSome then some (sgn * (hexVal l3 0 : ℤ)) else none
  | none => none

/-- ECMAScript ToInt32: reduce mod 2^32 into `[-2^31, 2^31)`. -/
def toInt32 (n : ℤ) : ℤ :=
  let u := n % 4294967296
  if 2147483648 ≤ u then u - 4294967296 else u

/-- JavaScript `a >> k`: ToInt32 then arithmetic (floor) shift. -/
def jsShr (a : ℤ) (k : ℕ) : ℤ :=
  Int.fdiv (toInt32 a) (2 ^ k)

/-- JavaScript `a & 255`: ToInt32 then keep the low 8 bits. -/
def jsAnd255 (a : ℤ) : ℤ :=
  toInt32 a % 256

/-- The string-massaging steps of `hexToRgb01`:
`raw = (hex || \x22#000000\x22).toString().trim()`, strip a leading `#`,
double each character of a 3-character value
(`h.split(\x22\x22).map(c => c + c).join(\x22\x22)`). -/
def hexBody (hex : Option (List Char)) : List Char :=
  let raw := trimChars (match hex with
    | none => ['#', '0', '0', '0', '0', '0', '0']
    | some s => if s = [] then ['#', '0', '0', '0', '0', '0', '0'] else s)
  let h := if raw.head? = some '#' then raw.tail else raw
  if h.length = 3 then h.foldr (fun c acc => c :: c :: acc) [] else h

/-- Embeds `hexToRgb01(hex)` from `preview.js`: parse the massaged string as a
hex integer; on NaN return black, else split into bytes
`(n >> 16) & 255`, `(n >> 8) & 255`, `n & 255`, each divided by 255. -/
def hexToRgb01 (hex : Option (List Char)) : ℚ × ℚ × ℚ :=
  match parseIntHex (hexBody hex) with
  | none => (0, 0, 0)
  | some n =>
    ((jsAnd255 (jsShr n 16) : ℚ) / 255, (jsAnd255 (jsShr n 8) : ℚ) / 255,
      (jsAnd255 n : ℚ) / 255)

/-- Modelled from the spec: a well-formed hex color is `#RRGGBB` or a
3-digit shorthand, with or without the leading `#`; returns the three
channel values (shorthand digits duplicate: `#abc = #aabbcc`). This
definition follows the spec's words and is compared against
`hexToRgb01`, which embeds the code. -/
def specHexColor? (s : List Char) : Option (ℕ × ℕ × ℕ) :=
  let body := if s.head? = some '#' then s.tail else s
  match body with
  | [a, b, c, d, e, f] =>
    match hexDigit? a, hexDigit? b, hexDigit? c, hexDigit? d,
        hexDigit? e, hexDigit? f with
    | some va, some vb, some vc, some vd, some ve, some vf =>
      some (16 * va + vb, 16 * vc + vd, 16 * ve + vf)
    | _, _, _, _, _, _ => none
  | [a, b, c] =>
    match hexDigit? a, hexDigit? b, hexDigit? c with
    | some va, some vb, some vc => some (17 * va, 17 * vb, 17 * vc)
    | _, _, _ => none
  | _ => none

end CertLanding

namespace CertLanding

/-! ### Hex parsing helper lemmas -/

theorem hexDigit_facts {c : Char} {v : ℕ} (h : hexDigit? c = some v) :
    v ≤ 15 ∧ ((48 ≤ c.toNat ∧ c.toNat ≤ 57) ∨
      (97 ≤ c.toNat ∧ c.toNat ≤ 102) ∨ (65 ≤ c.toNat ∧ c.toNat ≤ 70)) := by
  unfold hexDigit? at h
  split_ifs at h with h1 h2 h3 <;> injection h with h' <;> omega

theorem hexDigit_not_ws {c : Char} {v : ℕ} (h : hexDigit? c = some v) :
    isJsWS c = false := by
  obtain ⟨-, hb⟩ := hexDigit_facts h
  simp only [isJsWS, decide_eq_false_iff_not]
  omega

theorem hexDigit_ne_minus {c : Char} {v : ℕ} (h : hexDigit? c = some v) :
    c ≠ '-' := by
  obtain ⟨-, hb⟩ := hexDigit_facts h
  intro he
  subst he
  have hn : ('-').toNat = 45 := rfl
  omega

theorem hexDigit_ne_plus {c : Char} {v : ℕ} (h : hexDigit? c = some v) :
    c ≠ '+' := by
  obtain ⟨-, hb⟩ := hexDigit_facts h
  intro he
  subst he
  have hn : ('+').toNat = 43 := rfl
  omega

theorem hexDigit_ne_x {c : Char} {v : ℕ} (h : hexDigit? c = some v) :
    c ≠ 'x' ∧ c ≠ 'X' := by
  obtain ⟨-, hb⟩ := hexDigit_facts h
  constructor <;> intro he <;> subst he
  · have hn : ('x').toNat = 120 := rfl
    omega
  · have hn : ('X').toNat = 88 := rfl
    omega

theorem hexDigit_ne_hash {c : Char} {v : ℕ} (h : hexDigit? c = some v) :
    c ≠ '#' := by
  obtain ⟨-, hb⟩ := hexDigit_facts h
  intro he
  subst he
  have hn : ('#').toNat = 35 := rfl
  omega

theorem dropWhile_cons_not_ws {c : Char} (l : List Char)
    (h : isJsWS c = false) :
    List.dropWhile isJsWS (c :: l) = c :: l := by
  simp [List.dropWhile, h]

/-- Trimming is the identity on a string whose first and last characters
are not whitespace. -/
theorem trimChars_eq_self {l : List Char}
    (hh : ∀ c, l.head? = some c → isJsWS c = false)
    (hl : ∀ c, l.getLast? = some c → isJsWS c = false) :
    trimChars l = l := by
  cases l with
  | nil => rfl
  | cons a t =>
    have h1 : List.dropWhile isJsWS (a :: t) = a :: t :=
      dropWhile_cons_not_ws t (hh a rfl)
    unfold trimChars
    rw [h1]
    cases hr : (a :: t).reverse with
    | nil => exact absurd hr (by simp)
    | cons b s =>
      have hb : (a :: t).getLast? = some b := by
        rw [← List.head?_reverse, hr]
        rfl
      calc (List.dropWhile isJsWS (b :: s)).reverse
          = (b :: s).reverse := by rw [dropWhile_cons_not_ws s (hl b hb)]
        _ = ((a :: t).reverse).reverse := by rw [hr]
        _ = a :: t := List.reverse_reverse _

/-- Parsing a nonempty all-hex-digit string with `parseInt(v, 16)` consumes the whole
string. -/
theorem parseIntHex_digits {a : Char} {t : List Char}
    {va : ℕ} (ha : hexDigit? a = some va)
    (hall : ∀ c ∈ t, (hexDigit? c).isSome) :
    parseIntHex (a :: t) = some ((hexVal (a :: t) 0 : ℕ) : ℤ) := by
  have hwsa : isJsWS a = false := hexDigit_not_ws ha
  have hna : a ≠ '-' := hexDigit_ne_minus ha
  have hnp : a ≠ '+' := hexDigit_ne_plus ha
  simp only [parseIntHex, dropWhile_cons_not_ws t hwsa, List.head?_cons]
  have hc1 : ¬ (some a = some '-') := by simp [hna]
  have hc2 : ¬ (some a = some '-' ∨ some a = some '+') := by
    simp [hna, hnp]
  rw [if_neg hc1, if_neg hc2]
  have hc3 : ¬ (List.take 2 (a :: t) = ['0', 'x'] ∨
      List.take 2 (a :: t) = ['0', 'X']) := by
    cases t with
    | nil => simp
    | cons b t' =>
      have hb : (hexDigit? b).isSome := hall b (by simp)
      obtain ⟨vb, hvb⟩ := Option.isSome_iff_exists.mp hb
      obtain ⟨hbx, hbX⟩ := hexDigit_ne_x hvb
      simp [hbx, hbX]
  rw [if_neg hc3]
  simp only [List.head?_cons, ha, Option.isSome_some, if_true, one_mul]

/-! ### 32-bit arithmetic on small nonnegative values -/

theorem toInt32_small {n : ℤ} (h0 : 0 ≤ n) (h : n < 2147483648) :
    toInt32 n = n := by
  simp only [toInt32]
  have hm : n % 4294967296 = n := Int.emod_eq_of_lt h0 (by omega)
  rw [hm, if_neg (by omega)]

theorem jsShr_small {n : ℤ} (h0 : 0 ≤ n) (h : n < 2147483648) (k : ℕ) :
    jsShr n k = n / 2 ^ k := by
  simp only [jsShr, toInt32_small h0 h]
  exact Int.fdiv_eq_ediv n (by positivity)

theorem jsAnd255_small {n : ℤ} (h0 : 0 ≤ n) (h : n < 2147483648) :
    jsAnd255 n = n % 256 := by
  simp only [jsAnd255, toInt32_small h0 h]

/-- Byte extraction from a 24-bit color word behaves as expected. -/
theorem channels_extract (r g b : ℕ) (hr : r ≤ 255) (hg : g ≤ 255)
    (hb : b ≤ 255) :
    jsAnd255 (jsShr ((r * 65536 + g * 256 + b : ℕ) : ℤ) 16) = (r : ℤ) ∧
    jsAnd255 (jsShr ((r * 65536 + g * 256 + b : ℕ) : ℤ) 8) = (g : ℤ) ∧
    jsAnd255 ((r * 65536 + g * 256 + b : ℕ) : ℤ) = (b : ℤ) := by
  have h0 : (0 : ℤ) ≤ ((r * 65536 + g * 256 + b : ℕ) : ℤ) := by positivity
  have hlt : ((r * 65536 + g * 256 + b : ℕ) : ℤ) < 2147483648 := by
    push_cast
    omega
  refine ⟨?_, ?_, ?_⟩
  · rw [jsShr_small h0 hlt 16]
    have h2 : (2 : ℤ) ^ 16 = 65536 := by norm_num
    rw [h2]
    rw [jsAnd255_small (by omega) (by omega)]
    push_cast
    omega
  · rw [jsShr_small h0 hlt 8]
    have h2 : (2 : ℤ) ^ 8 = 256 := by norm_num
    rw [h2]
    rw [jsAnd255_small (by omega) (by omega)]
    push_cast
    omega
  · rw [jsAnd255_small h0 hlt]
    push_cast
    omega

end CertLanding

namespace CertLanding

/-! ### `hexBody` evaluation on well-formed inputs -/

theorem hexBody_hash_six (c₁ c₂ c₃ c₄ c₅ c₆ : Char)
    (h6 : isJsWS c₆ = false) :
    hexBody (some ['#', c₁, c₂, c₃, c₄, c₅, c₆]) =
      [c₁, c₂, c₃, c₄, c₅, c₆] := by
  have ht : trimChars ['#', c₁, c₂, c₃, c₄, c₅, c₆] =
      ['#', c₁, c₂, c₃, c₄, c₅, c₆] := by
    refine trimChars_eq_self ?_ ?_
    · intro c hc
      cases hc
      decide
    · intro c hc
      have hg : (['#', c₁, c₂, c₃, c₄, c₅, c₆] : List Char).getLast? =
          some c₆ := rfl
      rw [hg] at hc
      cases hc
      exact h6
  simp only [hexBody]
  rw [if_neg (show ¬(['#', c₁, c₂, c₃, c₄, c₅, c₆] : List Char) = [] by simp),
    ht,
    if_pos (show (['#', c₁, c₂, c₃, c₄, c₅, c₆] : List Char).head? = some '#'
      from rfl)]
  simp

theorem hexBody_bare_six (c₁ c₂ c₃ c₄ c₅ c₆ : Char)
    (h1 : isJsWS c₁ = false) (h6 : isJsWS c₆ = false) (hne : c₁ ≠ '#') :
    hexBody (some [c₁, c₂, c₃, c₄, c₅, c₆]) = [c₁, c₂, c₃, c₄, c₅, c₆] := by
  have ht : trimChars [c₁, c₂, c₃, c₄, c₅, c₆] =
      [c₁, c₂, c₃, c₄, c₅, c₆] := by
    refine trimChars_eq_self ?_ ?_
    · intro c hc
      cases hc
      exact h1
    · intro c hc
      have hg : ([c₁, c₂, c₃, c₄, c₅, c₆] : List Char).getLast? =
          some c₆ := rfl
      rw [hg] at hc
      cases hc
      exact h6
  simp only [hexBody]
  rw [if_neg (show ¬([c₁, c₂, c₃, c₄, c₅, c₆] : List Char) = [] by simp),
    ht,
    if_neg (show ¬([c₁, c₂, c₃, c₄, c₅, c₆] : List Char).head? = some '#'
      by simp [hne])]
  simp

theorem hexBody_hash_three (c₁ c₂ c₃ : Char) (h3 : isJsWS c₃ = false) :
    hexBody (some ['#', c₁, c₂, c₃]) = [c₁, c₁, c₂, c₂, c₃, c₃] := by
  have ht : trimChars ['#', c₁, c₂, c₃] = ['#', c₁, c₂, c₃] := by
    refine trimChars_eq_self ?_ ?_
    · intro c hc
      cases hc
      decide
    · intro c hc
      have hg : (['#', c₁, c₂, c₃] : List Char).getLast? = some c₃ := rfl
      rw [hg] at hc
      cases hc
      exact h3
  simp only [hexBody]
  rw [if_neg (show ¬(['#', c₁, c₂, c₃] : List Char) = [] by simp),
    ht,
    if_pos (show (['#', c₁, c₂, c₃] : List Char).head? = some '#' from rfl)]
  simp [List.foldr]

theorem hexBody_bare_three (c₁ c₂ c₃ : Char)
    (h1 : isJsWS c₁ = false) (h3 : isJsWS c₃ = false) (hne : c₁ ≠ '#') :
    hexBody (some [c₁, c₂, c₃]) = [c₁, c₁, c₂, c₂, c₃, c₃] := by
  have ht : trimChars [c₁, c₂, c₃] = [c₁, c₂, c₃] := by
    refine trimChars_eq_self ?_ ?_
    · intro c hc
      cases hc
      exact h1
    · intro c hc
      have hg : ([c₁, c₂, c₃] : List Char).getLast? = some c₃ := rfl
      rw [hg] at hc
      cases hc
      exact h3
  simp only [hexBody]
  rw [if_neg (show ¬([c₁, c₂, c₃] : List Char) = [] by simp),
    ht,
    if_neg (show ¬([c₁, c₂, c₃] : List Char).head? = some '#' by simp [hne])]
  simp [List.foldr]

/-! ### `parseIntHex` on six hex digits -/

theorem parse_six {c₁ c₂ c₃ c₄ c₅ c₆ : Char} {v₁ v₂ v₃ v₄ v₅ v₆ : ℕ}
    (h1 : hexDigit? c₁ = some v₁) (h2 : hexDigit? c₂ = some v₂)
    (h3 : hexDigit? c₃ = some v₃) (h4 : hexDigit? c₄ = some v₄)
    (h5 : hexDigit? c₅ = some v₅) (h6 : hexDigit? c₆ = some v₆) :
    parseIntHex [c₁, c₂, c₃, c₄, c₅, c₆] =
      some (((16 * v₁ + v₂) * 65536 + (16 * v₃ + v₄) * 256 +
        (16 * v₅ + v₆) : ℕ) : ℤ) := by
  rw [parseIntHex_digits h1 ?hall]
  case hall =>
    intro x hx
    simp only [List.mem_cons, List.not_mem_nil, or_false] at hx
    rcases hx with rfl | rfl | rfl | rfl | rfl
    · simp [h2]
    · simp [h3]
    · simp [h4]
    · simp [h5]
    · simp [h6]
  have hv : hexVal [c₁, c₂, c₃, c₄, c₅, c₆] 0 =
      (16 * v₁ + v₂) * 65536 + (16 * v₃ + v₄) * 256 + (16 * v₅ + v₆) := by
    simp only [hexVal, h1, h2, h3, h4, h5, h6]
    ring
  rw [hv]

end CertLanding

namespace CertLanding

/-- When the massaged string parses to a 24-bit color word, `hexToRgb01`
returns its three bytes, each divided by 255. -/
theorem hexToRgb01_of_parse {s : List Char} {r g b : ℕ}
    (hparse : parseIntHex (hexBody (some s)) =
      some ((r * 65536 + g * 256 + b : ℕ) : ℤ))
    (hr : r ≤ 255) (hg : g ≤ 255) (hb : b ≤ 255) :
    hexToRgb01 (some s) = ((r : ℚ) / 255, (g : ℚ) / 255, (b : ℚ) / 255) := by
  obtain ⟨e1, e2, e3⟩ := channels_extract r g b hr hg hb
  simp only [hexToRgb01, hparse, e1, e2, e3]
  norm_num

theorem div255_bounds {r : ℕ} (hr : r ≤ 255) :
    0 ≤ (r : ℚ) / 255 ∧ (r : ℚ) / 255 ≤ 1 := by
  constructor
  · positivity
  · rw [div_le_one (by norm_num)]
    exact_mod_cast hr

end CertLanding

namespace CertLanding

/-! ### Claim theorems: hex color -/

/-- C5 (counterexample): the input string `12` is not a well-formed hex
color, yet `hexToRgb01` does not return black: `parseInt` parses the
hex prefix `12` to 18 and the result is `(0, 0, 18/255)`. -/
theorem hexToRgb01_malformed_not_black :
    specHexColor? ['1', '2'] = none ∧
      hexToRgb01 (some ['1', '2']) ≠ (0, 0, 0) := by
  constructor
  · decide
  · have hp : parseIntHex (hexBody (some ['1', '2'])) = some 18 := by decide
    have e1 : jsAnd255 (jsShr 18 16) = 0 := by decide
    have e2 : jsAnd255 (jsShr 18 8) = 0 := by decide
    have e3 : jsAnd255 18 = 18 := by decide
    simp only [hexToRgb01, hp, e1, e2, e3]
    intro hc
    rw [Prod.ext_iff, Prod.ext_iff] at hc
    have := hc.2.2
    norm_num at this

/-- C5 (amended): for every well-formed hex color (`#RRGGBB` or 3-digit
shorthand, with or without the leading `#`) `hexToRgb01` returns the
parsed channel values each divided by 255, all within `[0, 1]`; the
black fallback is returned exactly when hex-prefix parsing of the
massaged string yields NaN — a malformed string with a parseable hex
digit prefix instead yields the color decoded from that prefix. -/
theorem hexToRgb01_wellformed_or_nan :
    (∀ (s : List Char) (r g b : ℕ), specHexColor? s = some (r, g, b) →
      hexToRgb01 (some s) = ((r : ℚ) / 255, (g : ℚ) / 255, (b : ℚ) / 255) ∧
      0 ≤ (r : ℚ) / 255 ∧ (r : ℚ) / 255 ≤ 1 ∧
      0 ≤ (g : ℚ) / 255 ∧ (g : ℚ) / 255 ≤ 1 ∧
      0 ≤ (b : ℚ) / 255 ∧ (b : ℚ) / 255 ≤ 1) ∧
    (∀ hex : Option (List Char),
      parseIntHex (hexBody hex) = none → hexToRgb01 hex = (0, 0, 0)) := by
  constructor
  · intro s r g b h
    simp only [specHexColor?] at h
    split at h
    next a1 a2 a3 a4 a5 a6 heq =>
      split at h
      next v1 v2 v3 v4 v5 v6 hd1 hd2 hd3 hd4 hd5 hd6 =>
        simp only [Option.some.injEq, Prod.mk.injEq] at h
        obtain ⟨hr', hg', hb'⟩ := h
        subst hr' hg' hb'
        have hf1 := (hexDigit_facts hd1).1
        have hf2 := (hexDigit_facts hd2).1
        have hf3 := (hexDigit_facts hd3).1
        have hf4 := (hexDigit_facts hd4).1
        have hf5 := (hexDigit_facts hd5).1
        have hf6 := (hexDigit_facts hd6).1
        have hrle : 16 * v1 + v2 ≤ 255 := by omega
        have hgle : 16 * v3 + v4 ≤ 255 := by omega
        have hble : 16 * v5 + v6 ≤ 255 := by omega
        by_cases hh : s.head? = some '#'
        · rw [if_pos hh] at heq
          obtain ⟨c0, rest, rfl⟩ : ∃ c0 rest, s = c0 :: rest := by
            cases s with
            | nil => simp at hh
            | cons c0 rest => exact ⟨c0, rest, rfl⟩
          rw [List.head?_cons, Option.some.injEq] at hh
          subst hh
          rw [List.tail_cons] at heq
          subst heq
          have hp : parseIntHex
              (hexBody (some ('#' :: [a1, a2, a3, a4, a5, a6]))) =
              some (((16 * v1 + v2) * 65536 + (16 * v3 + v4) * 256 +
                (16 * v5 + v6) : ℕ) : ℤ) := by
            rw [hexBody_hash_six a1 a2 a3 a4 a5 a6 (hexDigit_not_ws hd6)]
            exact parse_six hd1 hd2 hd3 hd4 hd5 hd6
          exact ⟨hexToRgb01_of_parse hp hrle hgle hble,
            (div255_bounds hrle).1, (div255_bounds hrle).2,
            (div255_bounds hgle).1, (div255_bounds hgle).2,
            (div255_bounds hble).1, (div255_bounds hble).2⟩
        · rw [if_neg hh] at heq
          subst heq
          have hne : a1 ≠ '#' := by
            intro he
            exact hh (by rw [List.head?_cons, he])
          have hp : parseIntHex (hexBody (some [a1, a2, a3, a4, a5, a6])) =
              some (((16 * v1 + v2) * 65536 + (16 * v3 + v4) * 256 +
                (16 * v5 + v6) : ℕ) : ℤ) := by
            rw [hexBody_bare_six a1 a2 a3 a4 a5 a6 (hexDigit_not_ws hd1)
              (hexDigit_not_ws hd6) hne]
            exact parse_six hd1 hd2 hd3 hd4 hd5 hd6
          exact ⟨hexToRgb01_of_parse hp hrle hgle hble,
            (div255_bounds hrle).1, (div255_bounds hrle).2,
            (div255_bounds hgle).1, (div255_bounds hgle).2,
            (div255_bounds hble).1, (div255_bounds hble).2⟩
      next => simp at h
    next a1 a2 a3 heq =>
      split at h
      next v1 v2 v3 hd1 hd2 hd3 =>
        simp only [Option.some.injEq, Prod.mk.injEq] at h
        obtain ⟨hr', hg', hb'⟩ := h
        subst hr' hg' hb'
        have hf1 := (hexDigit_facts hd1).1
        have hf2 := (hexDigit_facts hd2).1
        have hf3 := (hexDigit_facts hd3).1
        have hrle : 17 * v1 ≤ 255 := by omega
        have hgle : 17 * v2 ≤ 255 := by omega
        have hble : 17 * v3 ≤ 255 := by omega
        have harith : ((16 * v1 + v1) * 65536 + (16 * v2 + v2) * 256 +
            (16 * v3 + v3) : ℕ) =
            17 * v1 * 65536 + 17 * v2 * 256 + 17 * v3 := by
          ring
        by_cases hh : s.head? = some '#'
        · rw [if_pos hh] at heq
          obtain ⟨c0, rest, rfl⟩ : ∃ c0 rest, s = c0 :: rest := by
            cases s with
            | nil => simp at hh
            | cons c0 rest => exact ⟨c0, rest, rfl⟩
          rw [List.head?_cons, Option.some.injEq] at hh
          subst hh
          rw [List.tail_cons] at heq
          subst heq
          have hp : parseIntHex (hexBody (some ('#' :: [a1, a2, a3]))) =
              some ((17 * v1 * 65536 + 17 * v2 * 256 + 17 * v3 : ℕ) : ℤ) := by
            rw [hexBody_hash_three a1 a2 a3 (hexDigit_not_ws hd3)]
            have hps := parse_six hd1 hd1 hd2 hd2 hd3 hd3
            rw [harith] at hps
            exact hps
          exact ⟨hexToRgb01_of_parse hp hrle hgle hble,
            (div255_bounds hrle).1, (div255_bounds hrle).2,
            (div255_bounds hgle).1, (div255_bounds hgle).2,
            (div255_bounds hble).1, (div255_bounds hble).2⟩
        · rw [if_neg hh] at heq
          subst heq
          have hne : a1 ≠ '#' := by
            intro he
            exact hh (by rw [List.head?_cons, he])
          have hp : parseIntHex (hexBody (some [a1, a2, a3])) =
              some ((17 * v1 * 65536 + 17 * v2 * 256 + 17 * v3 : ℕ) : ℤ) := by
            rw [hexBody_bare_three a1 a2 a3 (hexDigit_not_ws hd1)
              (hexDigit_not_ws hd3) hne]
            have hps := parse_six hd1 hd1 hd2 hd2 hd3 hd3
            rw [harith] at hps
            exact hps
          exact ⟨hexToRgb01_of_parse hp hrle hgle hble,
            (div255_bounds hrle).1, (div255_bounds hrle).2,
            (div255_bounds hgle).1, (div255_bounds hgle).2,
            (div255_bounds hble).1, (div255_bounds hble).2⟩
      next => simp at h
    next => simp at h
  · intro hex h
    simp only [hexToRgb01, h]

/-- Witness for C5 (amended) at concrete inputs: the well-formed color
`#ff8000` parses to `(1, 128/255, 0)`, and the unparseable string `zz`
falls back to black. -/
theorem hexToRgb01_wellformed_or_nan_witness :
    hexToRgb01 (some ['#', 'f', 'f', '8', '0', '0', '0']) =
      (1, 128 / 255, 0) ∧
    hexToRgb01 (some ['z', 'z']) = (0, 0, 0) := by
  constructor
  · have hs : specHexColor? ['#', 'f', 'f', '8', '0', '0', '0'] =
        some (255, 128, 0) := by decide
    have h := (hexToRgb01_wellformed_or_nan.1 _ 255 128 0 hs).1
    rw [h]
    norm_num
  · have hp : parseIntHex (hexBody (some ['z', 'z'])) = none := by decide
    exact hexToRgb01_wellformed_or_nan.2 _ hp

end CertLanding

namespace CertLanding

/-! ### Row normalization (`onRequestPost`)

Embedding of the row pipeline of the handler:
`rows.map(normalize).filter(r => r.name && r.award).slice(0, MAX_PREVIEW)`.
A raw row is a JSON object whose members may be absent; all members the
code reads are strings here (the code additionally coerces other JSON
values with `String(...)`, which the claims do not involve). -/

/-- Embeds `MAX_PREVIEW` from the handler. -/
def MAX_PREVIEW : ℕ := 5

structure RawRow where
  name : Option (List Char)
  award : Option (List Char)
  title : Option (List Char)
  date : Option (List Char)
  issuer : Option (List Char)
deriving DecidableEq, Repr

structure Row where
  name : List Char
  award : List Char
  date : List Char
  issuer : List Char
deriving DecidableEq, Repr

/-- JavaScript `a || b` on strings: `b` when `a` is absent or empty
(falsy), else `a`. -/
def jsOrStr (a : Option (List Char)) (b : List Char) : List Char :=
  match a with
  | some s => if s = [] then b else s
  | none => b

/-- One element of the `rows.map((r) => ({...}))` normalization:
`name: r?.name || \x22\x22`, `award: r?.award ?? r?.title ?? \x22\x22`
(nullish coalescing: a present empty `award` wins over `title`),
`date`, `issuer` likewise. -/
def normalizeRow (r : RawRow) : Row :=
  { name := r.name.getD []
    award := r.award.getD (r.title.getD [])
    date := r.date.getD []
    issuer := r.issuer.getD [] }

/-- Embeds the filter `(r) => r.name && r.award`: both strings truthy (nonempty). -/
def isValidRow (r : Row) : Bool :=
  !r.name.isEmpty && !r.award.isEmpty

/-- Embeds `rows.map(...).filter(...).slice(0, MAX_PREVIEW)`. -/
def processRows (rows : List RawRow) : List Row :=
  ((rows.map normalizeRow).filter isValidRow).take MAX_PREVIEW

/-! ### Fonts, styles, draw operations -/

inductive FieldKey where
  | certTitle | name | award | date | issuer
deriving DecidableEq, Repr

structure StyleEntry where
  font : Option (List Char)
  color : Option (List Char)
deriving DecidableEq, Repr

inductive FontName where
  | helvetica | helveticaBold | timesRoman | timesRomanBold
  | courier | courierBold
deriving DecidableEq, Repr

/-- Embeds `resolveFontKey`: `(style?.[fieldKey]?.font || \x22helvetica\x22)
.toLowerCase()` (the bold flag is carried separately; the code packs it
into the cache-key string and immediately unpacks it in
`fontNameForKey`). -/
def resolveFontId (style : FieldKey → Option StyleEntry) (k : FieldKey) :
    List Char :=
  (jsOrStr ((style k).bind StyleEntry.font) (("helvetica").toList)).map
    Char.toLower

/-- Embeds `fontNameForKey`: `times`/`courier` map to their families, anything
else falls back to Helvetica; bold picks the bold face. -/
def fontNameForKey (fontId : List Char) (bold : Bool) : FontName :=
  if fontId = ("times").toList then
    if bold then .timesRomanBold else .timesRoman
  else if fontId = ("courier").toList then
    if bold then .courierBold else .courier
  else if bold then .helveticaBold else .helvetica

/-- Embeds `getFont(fieldKey, isBold)` (the font cache only avoids re-embedding
the same face and is semantically transparent). -/
def getFont (style : FieldKey → Option StyleEntry) (k : FieldKey)
    (bold : Bool) : FontName :=
  fontNameForKey (resolveFontId style k) bold

/-- Embeds `colorFor(fieldKey, fallback)`:
`hexToRgb01(style?.[fieldKey]?.color || fallback || \x22#000\x22)`. -/
def colorFor (style : FieldKey → Option StyleEntry) (k : FieldKey)
    (fallback : List Char) : ℚ × ℚ × ℚ :=
  hexToRgb01 (some (jsOrStr ((style k).bind StyleEntry.color)
    (jsOrStr (some fallback) (("#000").toList))))

/-- One drawing instruction appended to a page (`page.drawImage` /
`page.drawRectangle` / `page.drawText`). -/
inductive DrawOp where
  | drawImage (x y w h : ℚ)
  | drawRect (x y w h : ℚ) (color : ℚ × ℚ × ℚ)
  | drawText (text : List Char) (x y : ℚ) (size : ℤ) (font : FontName)
      (color : ℚ × ℚ × ℚ) (rotate : Option ℚ) (opacity : Option ℚ)
deriving DecidableEq, Repr

/-- The watermark string drawn on every preview page. -/
def wmText : List Char :=
  ("PREVIEW — UPGRADE TO REMOVE WATERMARK").toList

/-! ### Page rendering (`onRequestPost` body loop) -/

/-- One iteration of the page loop: background (cover fit), certificate
title, name, award, optional date, optional issuer, watermark — in code
order.  `measure` is `font.widthOfTextAtSize`. -/
def renderPage (measure : FontName → List Char → ℤ → ℚ)
    (style : FieldKey → Option StyleEntry)
    (pos : FieldKey → Option UIPos)
    (certificateTitle dateTextDefault issuerDefault : List Char)
    (imgW imgH w h : ℚ) (row : Row) : List DrawOp :=
  let bgScale := max (w / imgW) (h / imgH)
  let bgOp := DrawOp.drawImage ((w - imgW * bgScale) / 2)
    ((h - imgH * bgScale) / 2) (imgW * bgScale) (imgH * bgScale)
  let ctFont := getFont style .certTitle true
  let ctPos := posToPdf (pos .certTitle) w h
  let ctSize := fitTextSize (measure ctFont) (some certificateTitle)
    (w * 0.82) 38 18
  let ctTw := measure ctFont certificateTitle ctSize
  let ctOp := DrawOp.drawText certificateTitle (ctPos.1 - ctTw / 2) ctPos.2
    ctSize ctFont (colorFor style .certTitle (("#2a2a2a").toList)) none none
  let nmFont := getFont style .name true
  let nmPos := posToPdf (pos .name) w h
  let nmSize := fitTextSize (measure nmFont) (some row.name) (w * 0.82) 34 18
  let nmTw := measure nmFont row.name nmSize
  let nmOp := DrawOp.drawText row.name (nmPos.1 - nmTw / 2) nmPos.2 nmSize
    nmFont (colorFor style .name (("#2a2a2a").toList)) none none
  let awFont := getFont style .award false
  let awPos := posToPdf (pos .award) w h
  let awSize := fitTextSize (measure awFont) (some row.award) (w * 0.82) 18 11
  let awTw := measure awFont row.award awSize
  let awOp := DrawOp.drawText row.award (awPos.1 - awTw / 2) awPos.2 awSize
    awFont (colorFor style .award (("#3a3a3a").toList)) none none
  let effDate := jsOrStr (some row.date) dateTextDefault
  let dateOps := if effDate = [] then [] else
    let dtText := ("Date: ").toList ++ effDate
    let dtFont := getFont style .date false
    let dtPos := posToPdf (pos .date) w h
    let dtTw := measure dtFont dtText 12
    [DrawOp.drawText dtText (dtPos.1 - dtTw / 2) dtPos.2 12 dtFont
      (colorFor style .date (("#3a3a3a").toList)) none none]
  let effIssuer := jsOrStr (some row.issuer) issuerDefault
  let issuerOps := if effIssuer = [] then [] else
    let isFont := getFont style .issuer true
    let isPos := posToPdf (pos .issuer) w h
    let isTw := measure isFont effIssuer 14
    [DrawOp.drawText effIssuer (isPos.1 - isTw / 2) isPos.2 14 isFont
      (colorFor style .issuer (("#2a2a2a").toList)) none none]
  let wmOp := DrawOp.drawText wmText 40 (h * 0.35) 22 .helveticaBold
    (0.75, 0.75, 0.75) (some 25) (some 0.35)
  [bgOp, ctOp, nmOp, awOp] ++ dateOps ++ issuerOps ++ [wmOp]

/-! ### The handler (`onRequestPost`) -/

inductive Paper where
  | A4 | LETTER
deriving DecidableEq, Repr

/-- Embeds `pageSize(paperSize)`: landscape A4 842×595 pt, Letter 792×612. -/
def pageSize : Paper → ℚ × ℚ
  | .LETTER => (792, 612)
  | .A4 => (842, 595)

/-- Embeds `templateKey.toLowerCase().split(\x22.\x22)`: split on dots,
keeping empty segments (JS `split` never yields an empty array). -/
def splitOnDot : List Char → List (List Char)
  | [] => [[]]
  | c :: rest =>
    let r := splitOnDot rest
    if c = '.' then [] :: r
    else
      match r with
      | [] => [[c]]
      | h :: t => (c :: h) :: t

/-- Embeds `templateKey.toLowerCase().split(\x22.\x22).pop()`. -/
def extOf (templateKey : List Char) : List Char :=
  ((splitOnDot (templateKey.map Char.toLower)).getLast?).getD []

inductive ImgFormat where
  | png | jpg
deriving DecidableEq, Repr

/-- The `embedPng` / `embedJpg` / `null` selection on the file
extension. -/
def embedFormat (ext : List Char) : Option ImgFormat :=
  if ext = ("png").toList then some .png
  else if ext = ("jpg").toList ∨ ext = ("jpeg").toList then some .jpg
  else none

def unsupportedMsg : List Char :=
  ("Unsupported template format. Use PNG or JPG.").toList

def noRowsMsg : List Char :=
  ("No valid rows found.").toList

/-- The render phase of the handler, in code order: normalize rows and
reject when none are valid, then check the background format (the
`throw` surfaces as the 500-response error message; it happens before
any page is added to the document), then draw one page per remaining
row.  Returns the pages of the produced document and the error message,
if any. -/
def runPreview (templateKey : List Char) (rows : List RawRow)
    (measure : FontName → List Char → ℤ → ℚ)
    (style : FieldKey → Option StyleEntry)
    (pos : FieldKey → Option UIPos)
    (certificateTitle dateTextDefault issuerDefault : List Char)
    (paper : Paper) (imgW imgH : ℚ) :
    List (List DrawOp) × Option (List Char) :=
  let rows' := processRows rows
  if rows'.isEmpty then ([], some noRowsMsg)
  else
    match embedFormat (extOf templateKey) with
    | none => ([], some unsupportedMsg)
    | some _ =>
      let wh := pageSize paper
      (rows'.map (renderPage measure style pos certificateTitle
        dateTextDefault issuerDefault imgW imgH wh.1 wh.2), none)

/-! ### The `part_002` preview variant -/

/-- Embeds the footer string of the `part_002` page loop:
`Preview page ` followed by the one-based page number, ` of `, and the
number of rendered rows. -/
def previewFooterText (i n : ℕ) : List Char :=
  ("Preview page ").toList ++ (Nat.repr (i + 1)).toList ++
    (" of ").toList ++ (Nat.repr n).toList

/-- Embeds one iteration of the page loop of the `part_002` preview
variant (`onRequestPost` there): white background rectangle, template
accent bar, `Certificate` header, centred name and title
(`drawCenteredText`), optional centred date, the fixed watermark, and
finally a page-number footer.  `i` is the zero-based row index and `n`
the number of rendered rows (`rows.length` after the preview cap). -/
def renderPagePart002 (measure : FontName → List Char → ℤ → ℚ)
    (templateId name title date : List Char) (w h : ℚ) (i n : ℕ) :
    List DrawOp :=
  let bgOp := DrawOp.drawRect 0 0 w h (1, 1, 1)
  let barColor : ℚ × ℚ × ℚ :=
    if templateId = ("modern").toList then (0.12, 0.12, 0.12)
    else if templateId = ("elegant").toList then (0.2, 0.45, 1)
    else (0.65, 0.2, 0.85)
  let barOp := DrawOp.drawRect 0 (h - 80) w 80 barColor
  let headerOp := DrawOp.drawText (("Certificate").toList) 40 (h - 52) 22
    .helveticaBold (1, 1, 1) none none
  let nameOp := DrawOp.drawText name
    ((w - measure .helveticaBold name 34) / 2) (h * 0.55) 34 .helveticaBold
    (0.1, 0.1, 0.1) none none
  let titleOp := DrawOp.drawText title
    ((w - measure .helvetica title 18) / 2) (h * 0.48) 18 .helvetica
    (0.25, 0.25, 0.25) none none
  let dateOps := if date = [] then [] else
    let dtText := ("Date: ").toList ++ date
    [DrawOp.drawText dtText ((w - measure .helvetica dtText 12) / 2)
      (h * 0.22) 12 .helvetica (0.35, 0.35, 0.35) none none]
  let wmOp := DrawOp.drawText wmText 40 (h * 0.35) 22 .helveticaBold
    (0.75, 0.75, 0.75) (some 25) (some 0.35)
  let footerOp := DrawOp.drawText (previewFooterText i n) 40 30 10
    .helvetica (0.5, 0.5, 0.5) none none
  [bgOp, barOp, headerOp, nameOp, titleOp] ++ dateOps ++ [wmOp] ++ [footerOp]

end CertLanding

namespace CertLanding

/-! ### Claim theorems: render pipeline -/

/-- C7 (counterexample): on a page produced by the `part_002`
preview-mode variant the last drawing instruction is the page-number
footer, not the watermark: with the single row `(A, B)` (zero-based
index 0 of 1 rendered row) on an A4 portrait page, the page ends with
the instruction drawing `Preview page 1 of 1`. -/
theorem part002_footer_drawn_after_watermark :
    (renderPagePart002 (fun _ _ _ => 0) (("modern").toList) (("A").toList)
        (("B").toList) [] 595 842 0 1).getLast? =
      some (DrawOp.drawText (("Preview page 1 of 1").toList) 40 30 10
        .helvetica (0.5, 0.5, 0.5) none none) ∧
    (renderPagePart002 (fun _ _ _ => 0) (("modern").toList) (("A").toList)
        (("B").toList) [] 595 842 0 1).getLast? ≠
      some (DrawOp.drawText wmText 40 (842 * 0.35) 22 .helveticaBold
        (0.75, 0.75, 0.75) (some 25) (some 0.35)) := by
  have hlast : (renderPagePart002 (fun _ _ _ => 0) (("modern").toList)
      (("A").toList) (("B").toList) [] 595 842 0 1).getLast? =
      some (DrawOp.drawText (previewFooterText 0 1) 40 30 10
        .helvetica (0.5, 0.5, 0.5) none none) := by
    simp only [renderPagePart002]
    exact List.getLast?_concat _
  have htext : previewFooterText 0 1 = ("Preview page 1 of 1").toList := by
    decide
  constructor
  · rw [hlast, htext]
  · rw [hlast]
    intro hc
    simp only [Option.some.injEq, DrawOp.drawText.injEq] at hc
    exact absurd hc.1 (by decide)

/-- C7 (amended): on every page of the `preview.js`/`part_003` handler
variants the last drawing instruction is the fixed watermark text at
`x = 40`, `y = 0.35 * pageHeight`, 22 pt, Helvetica-Bold, gray
`(0.75, 0.75, 0.75)`, rotated 25°, opacity 0.35, whatever the row,
positions and styles; the `part_002` variant draws the same fixed
watermark on every page but appends exactly one page-number footer
after it, so there the watermark is the second-to-last instruction. -/
theorem watermark_fixed_on_every_page :
    (∀ (measure : FontName → List Char → ℤ → ℚ)
        (style : FieldKey → Option StyleEntry)
        (pos : FieldKey → Option UIPos)
        (certificateTitle dateTextDefault issuerDefault : List Char)
        (imgW imgH w h : ℚ) (row : Row),
      (renderPage measure style pos certificateTitle dateTextDefault
          issuerDefault imgW imgH w h row).getLast? =
        some (DrawOp.drawText wmText 40 (h * 0.35) 22 .helveticaBold
          (0.75, 0.75, 0.75) (some 25) (some 0.35))) ∧
    (∀ (measure : FontName → List Char → ℤ → ℚ)
        (templateId name title date : List Char) (w h : ℚ) (i n : ℕ),
      ((renderPagePart002 measure templateId name title date w h
          i n).dropLast).getLast? =
        some (DrawOp.drawText wmText 40 (h * 0.35) 22 .helveticaBold
          (0.75, 0.75, 0.75) (some 25) (some 0.35)) ∧
      (renderPagePart002 measure templateId name title date w h
          i n).getLast? =
        some (DrawOp.drawText (previewFooterText i n) 40 30 10
          .helvetica (0.5, 0.5, 0.5) none none)) := by
  constructor
  · intro measure style pos certificateTitle dateTextDefault issuerDefault
      imgW imgH w h row
    simp only [renderPage]
    exact List.getLast?_concat _
  · intro measure templateId name title date w h i n
    constructor
    · simp only [renderPagePart002]
      rw [List.dropLast_concat]
      exact List.getLast?_concat _
    · simp only [renderPagePart002]
      exact List.getLast?_concat _

/-- C4: when the background format is accepted, the number of pages
drawn is exactly `min n 5`, where `n` counts the submitted rows that
are valid after normalization (nonempty name and nonempty
award/title), and never exceeds the preview cap. -/
theorem runPreview_page_count (templateKey : List Char)
    (rows : List RawRow) (measure : FontName → List Char → ℤ → ℚ)
    (style : FieldKey → Option StyleEntry) (pos : FieldKey → Option UIPos)
    (certificateTitle dateTextDefault issuerDefault : List Char)
    (paper : Paper) (imgW imgH : ℚ)
    (hsup : (embedFormat (extOf templateKey)).isSome = true) :
    (runPreview templateKey rows measure style pos certificateTitle
        dateTextDefault issuerDefault paper imgW imgH).1.length =
      min (rows.countP (fun r => isValidRow (normalizeRow r)))
        MAX_PREVIEW ∧
    (runPreview templateKey rows measure style pos certificateTitle
        dateTextDefault issuerDefault paper imgW imgH).1.length ≤
      MAX_PREVIEW := by
  have hcount : ((rows.map normalizeRow).filter isValidRow).length =
      rows.countP (fun r => isValidRow (normalizeRow r)) := by
    rw [← List.countP_eq_length_filter, List.countP_map]
    rfl
  simp only [runPreview]
  by_cases hempty : (processRows rows).isEmpty = true
  · rw [if_pos hempty]
    have hnil : (rows.map normalizeRow).filter isValidRow = [] := by
      have hpr : processRows rows = [] := by
        cases hp : processRows rows with
        | nil => rfl
        | cons a t =>
          rw [hp] at hempty
          simp at hempty
      unfold processRows at hpr
      cases hf : (rows.map normalizeRow).filter isValidRow with
      | nil => rfl
      | cons a t =>
        rw [hf] at hpr
        simp [MAX_PREVIEW, List.take] at hpr
    constructor
    · rw [← hcount, hnil]
      simp [MAX_PREVIEW]
    · simp [MAX_PREVIEW]
  · rw [if_neg hempty]
    obtain ⟨fmt, hfmt⟩ := Option.isSome_iff_exists.mp hsup
    rw [hfmt]
    simp only [List.length_map]
    have hlen : (processRows rows).length =
        min (rows.countP (fun r => isValidRow (normalizeRow r)))
          MAX_PREVIEW := by
      unfold processRows
      rw [List.length_take, hcount, Nat.min_comm]
    constructor
    · exact hlen
    · rw [hlen]
      exact Nat.min_le_right _ _

/-- Witness for C4: a `.png` template with six valid rows renders
exactly five pages. -/
theorem runPreview_page_count_witness :
    (embedFormat (extOf (("bg.png").toList))).isSome = true ∧
    (runPreview (("bg.png").toList)
        (List.replicate 6 ⟨some (("A").toList), some (("B").toList),
          none, none, none⟩)
        (fun _ _ _ => 0) (fun _ => none) (fun _ => none) [] [] []
        .A4 1000 500).1.length = 5 := by
  have h := runPreview_page_count (("bg.png").toList)
    (List.replicate 6 ⟨some (("A").toList), some (("B").toList),
      none, none, none⟩)
    (fun _ _ _ => 0) (fun _ => none) (fun _ => none) [] [] []
    .A4 1000 500 (by decide)
  refine ⟨by decide, ?_⟩
  rw [h.1]
  decide

/-- C6: a background template whose extension is neither PNG nor JPEG
makes the whole request fail with a user-facing error and an output
document holding zero pages; if the valid rows are nonempty the error
is precisely the unsupported-format message, and a PNG/JPEG template is
never rejected with that message. -/
theorem runPreview_unsupported_format (templateKey : List Char)
    (rows : List RawRow) (measure : FontName → List Char → ℤ → ℚ)
    (style : FieldKey → Option StyleEntry) (pos : FieldKey → Option UIPos)
    (certificateTitle dateTextDefault issuerDefault : List Char)
    (paper : Paper) (imgW imgH : ℚ) :
    (embedFormat (extOf templateKey) = none →
      (runPreview templateKey rows measure style pos certificateTitle
        dateTextDefault issuerDefault paper imgW imgH).1 = [] ∧
      ((runPreview templateKey rows measure style pos certificateTitle
        dateTextDefault issuerDefault paper imgW imgH).2).isSome = true) ∧
    (embedFormat (extOf templateKey) = none → processRows rows ≠ [] →
      runPreview templateKey rows measure style pos certificateTitle
        dateTextDefault issuerDefault paper imgW imgH =
        ([], some unsupportedMsg)) ∧
    ((embedFormat (extOf templateKey)).isSome = true →
      (runPreview templateKey rows measure style pos certificateTitle
        dateTextDefault issuerDefault paper imgW imgH).2 ≠
        some unsupportedMsg) := by
  refine ⟨?_, ?_, ?_⟩
  · intro hfmt
    simp only [runPreview]
    by_cases hempty : (processRows rows).isEmpty = true
    · rw [if_pos hempty]
      exact ⟨rfl, rfl⟩
    · rw [if_neg hempty, hfmt]
      exact ⟨rfl, rfl⟩
  · intro hfmt hrows
    simp only [runPreview]
    rw [if_neg (by simp [List.isEmpty_iff, hrows]), hfmt]
  · intro hsup
    obtain ⟨fmt, hfmt⟩ := Option.isSome_iff_exists.mp hsup
    simp only [runPreview]
    by_cases hempty : (processRows rows).isEmpty = true
    · rw [if_pos hempty]
      decide
    · rw [if_neg hempty, hfmt]
      simp

/-- Witness for C6: a `.gif` template with one valid row is rejected
with the unsupported-format message and zero pages. -/
theorem runPreview_unsupported_format_witness :
    embedFormat (extOf (("bg.gif").toList)) = none ∧
    processRows [⟨some (("A").toList), some (("B").toList),
      none, none, none⟩] ≠ [] ∧
    runPreview (("bg.gif").toList)
        [⟨some (("A").toList), some (("B").toList), none, none, none⟩]
        (fun _ _ _ => 0) (fun _ => none) (fun _ => none) [] [] []
        .A4 1000 500 = ([], some unsupportedMsg) := by
  refine ⟨by decide, by decide, ?_⟩
  exact (runPreview_unsupported_format (("bg.gif").toList)
    [⟨some (("A").toList), some (("B").toList), none, none, none⟩]
    (fun _ _ _ => 0) (fun _ => none) (fun _ => none) [] [] []
    .A4 1000 500).2.1 (by decide) (by decide)

/-- C10: `title` is accepted as an alias of `award` during row
normalization — `{name, title: v}` normalizes (and hence renders)
exactly like `{name, award: v}` — and a present `award` value takes
precedence over any `title` value. -/
theorem normalizeRow_title_alias :
    (∀ (nm dt iss : Option (List Char)) (v : List Char)
        (t : Option (List Char)),
      normalizeRow ⟨nm, none, some v, dt, iss⟩ =
        normalizeRow ⟨nm, some v, t, dt, iss⟩) ∧
    (∀ (measure : FontName → List Char → ℤ → ℚ)
        (style : FieldKey → Option StyleEntry)
        (pos : FieldKey → Option UIPos)
        (certificateTitle dateTextDefault issuerDefault : List Char)
        (imgW imgH w h : ℚ) (nm dt iss : Option (List Char))
        (v : List Char) (t : Option (List Char)),
      renderPage measure style pos certificateTitle dateTextDefault
          issuerDefault imgW imgH w h
          (normalizeRow ⟨nm, none, some v, dt, iss⟩) =
        renderPage measure style pos certificateTitle dateTextDefault
          issuerDefault imgW imgH w h
          (normalizeRow ⟨nm, some v, t, dt, iss⟩)) := by
  have halias : ∀ (nm dt iss : Option (List Char)) (v : List Char)
      (t : Option (List Char)),
      normalizeRow ⟨nm, none, some v, dt, iss⟩ =
        normalizeRow ⟨nm, some v, t, dt, iss⟩ := by
    intro nm dt iss v t
    rfl
  refine ⟨halias, ?_⟩
  intro measure style pos certificateTitle dateTextDefault issuerDefault
    imgW imgH w h nm dt iss v t
  rw [halias nm dt iss v t]

end CertLanding
